import Mathlib

/-!
Verification of the paxhtml HTML-generation library.

This file shallowly embeds the core data model and algorithms of the
repository — the element trees and renderer of `paxhtml/src/render_element.rs`
and `paxhtml/src/element.rs`, the attribute-string state machine of
`paxhtml/src/attribute.rs`, the runtime markup parser of
`paxhtml_parser/src/parser.rs`, and the AST evaluator of
`paxhtml/src/eval.rs` — and proves properties of the embedding.

Modelling conventions:
- bump-allocated strings/vectors become plain `String`/`List`;
- a streaming `io::Write` sink becomes the produced `String`, and fallible
  writes become `Except`;
- character scanning positions are explicit `Nat` indices over `List Char`.
-/

namespace Paxhtml

/-- An HTML attribute: `Attribute { key, value }` from `paxhtml/src/attribute.rs`.
A `none` value denotes a boolean/valueless attribute.  The renderer and the
attribute parser only ever observe string-valued attributes, so the value is
modelled as `Option String` (the `AttributeValue::String` case). -/
structure Attribute where
  key : String
  value : Option String
  deriving Repr, DecidableEq

/-- A renderable element, from `RenderElement` in `paxhtml/src/render_element.rs`. -/
inductive RenderElement where
  /-- A tag element. -/
  | tag (name : String) (attributes : List Attribute)
        (children : List RenderElement) (void : Bool)
  /-- A text element. -/
  | text (t : String)
  /-- A raw element. -/
  | raw (html : String)

/-- An authoring-time element, from `Element` in `paxhtml/src/element.rs`. -/
inductive Element where
  /-- An empty element. -/
  | empty
  /-- A tag element. -/
  | tag (name : String) (attributes : List Attribute)
        (children : List Element) (void : Bool)
  /-- A fragment element. -/
  | fragment (children : List Element)
  /-- A text element. -/
  | text (t : String)
  /-- A raw element. -/
  | raw (html : String)

mutual

/-- The per-element contribution of the `for e in elements` loop body of
`RenderElement::from_elements` (`paxhtml/src/render_element.rs`): `Empty`
contributes nothing, a `Tag` contributes itself with converted children, a
`Fragment` contributes its converted children spliced in place, a `Text`
node is dropped when its text is exactly a newline, and `Text`/`Raw`
contribute themselves. -/
def fromElement : Element → List RenderElement
  | .empty => []
  | .tag n a c v => [.tag n a (fromElements c) v]
  | .fragment c => fromElements c
  | .text t => if t = "\n" then [] else [.text t]
  | .raw h => [.raw h]

/-- `RenderElement::from_elements`: the loop accumulating the contributions
of each element in order. -/
def fromElements : List Element → List RenderElement
  | [] => []
  | e :: rest => fromElement e ++ fromElements rest

end

/-- The fixed inline-tag set of `RenderElement::is_inline_element`. -/
def inlineTags : List String :=
  ["a", "abbr", "acronym", "b", "bdo", "big", "br", "button", "cite", "code",
   "dfn", "em", "i", "img", "input", "kbd", "label", "map", "pre", "object",
   "output", "q", "samp", "script", "select", "small", "span", "strong",
   "sub", "sup", "textarea", "time", "tt", "var"]

/-- `RenderElement::tag` accessor. -/
def RenderElement.tagName : RenderElement → Option String
  | .tag name _ _ _ => some name
  | _ => none

/-- `RenderElement::is_inline_element`. -/
def RenderElement.isInlineElement (e : RenderElement) : Bool :=
  match e.tagName with
  | some t => inlineTags.contains t
  | none => false

/-- `RenderElement::is_raw`. -/
def RenderElement.isRaw : RenderElement → Bool
  | .raw _ => true
  | _ => false

/-- Whether an element is a `Text` node (`matches!(element, Self::Text { .. })`). -/
def RenderElement.isText : RenderElement → Bool
  | .text _ => true
  | _ => false

/-- Per-character body-text escaping of `html_escape::encode_text`
(escapes the characters ampersand, less-than and greater-than). -/
def escChar (c : Char) : List Char :=
  if c = '&' then "&amp;".data
  else if c = '<' then "&lt;".data
  else if c = '>' then "&gt;".data
  else [c]

/-- HTML body-text escaping, `html_escape::encode_text`. -/
def escapeTextL (l : List Char) : List Char := l.flatMap escChar

/-- Per-character quoted-attribute escaping modelling
`html_escape::encode_quoted_attribute` (escapes the ampersand and both
quote characters; less-than and greater-than are left alone in a quoted
attribute context). -/
def escAttrChar (c : Char) : List Char :=
  if c = '&' then "&amp;".data
  else if c = '"' then "&quot;".data
  else if c = '\'' then "&#x27;".data
  else [c]

/-- Attribute-value escaping, `html_escape::encode_quoted_attribute`. -/
def escapeQuotedAttribute (s : String) : String :=
  String.mk (s.data.flatMap escAttrChar)

/-- Split a character list on newline characters; the result always has one
more part than the number of newlines (so it is never empty). -/
def splitOnNl : List Char → List (List Char)
  | [] => [[]]
  | c :: rest =>
      let r := splitOnNl rest
      if c = '\n' then [] :: r else (c :: r.headD []) :: r.tail

/-- Strip a single trailing carriage return (`str::strip_suffix('\r')`). -/
def stripCr (l : List Char) : List Char :=
  if l.getLast? = some '\r' then l.dropLast else l

/-- The line decomposition of Rust's `str::lines()`: lines are split at
newlines, a carriage return is stripped only when it immediately precedes a
newline, and a final trailing newline produces no extra empty line. -/
def rustLines (u : List Char) : List (List Char) :=
  (splitOnNl u).dropLast.map stripCr ++
    (if (splitOnNl u).getLastD [] = [] then [] else [(splitOnNl u).getLastD []])

/-- Emission of a `RenderElement::Text` node (`write`, text arm): the
HTML-escaped text is split into lines and the lines are joined by single
newlines. -/
def writeTextL (t : List Char) : List Char :=
  List.intercalate ['\n'] (rustLines (escapeTextL t))

/-- String-level wrapper for `writeTextL`. -/
def writeText (t : String) : String := String.mk (writeTextL t.data)

/-- The serialized attribute list of the opening tag: for each attribute,
a space then `key="escaped value"`, or a bare space-prefixed key. -/
def attrsString (attrs : List Attribute) : String :=
  attrs.foldl
    (fun acc a =>
      match a.value with
      | some v => acc ++ " " ++ a.key ++ "=\"" ++
          escapeQuotedAttribute v ++ "\""
      | none => acc ++ " " ++ a.key)
    ""

/-- Two-space indentation repeated `depth` times. -/
def indentStr (depth : Nat) : String := String.mk (List.replicate (2 * depth) ' ')

/-- The render-time error of `RenderElement::write`: a void element with
children is reported as an `io::ErrorKind::InvalidInput` error carrying the
offending node. -/
inductive WriteError where
  | invalidInput (offending : RenderElement)

mutual

/-- `RenderElement::write` from `paxhtml/src/render_element.rs`, with the
writer modelled as the produced string. -/
def RenderElement.write : RenderElement → Nat → Except WriteError String
  | .tag name attributes children void, depth =>
      let openTag := "<" ++ name ++ attrsString attributes ++ ">"
      if void then
        if children.isEmpty then .ok openTag
        else .error (.invalidInput (.tag name attributes children void))
      else
        match writeManyAux (!children.isEmpty) false false children (depth + 1) with
        | .error e => .error e
        | .ok (body, didIndent) =>
            .ok (openTag ++ body ++
              (if didIndent then "\n" ++ indentStr depth else "") ++
              "</" ++ name ++ ">")
  | .text t, _ => .ok (writeText t)
  | .raw html, _ => .ok html

/-- The loop body of `RenderElement::write_many`, threading the
`did_indent` and `encountered_text_element` flags. -/
def writeManyAux (shouldIndent didIndent encounteredText : Bool) :
    List RenderElement → Nat → Except WriteError (String × Bool)
  | [], _ => .ok ("", didIndent)
  | e :: rest, depth =>
      let encounteredText' := encounteredText || e.isText
      let shouldIndentThisChild :=
        shouldIndent && !encounteredText' && !e.isInlineElement && !e.isRaw
      let doIndent := shouldIndentThisChild && decide (0 < depth)
      let pre := if doIndent then "\n" ++ indentStr depth else ""
      match e.write depth with
      | .error err => .error err
      | .ok s =>
          match writeManyAux shouldIndent (didIndent || doIndent)
              encounteredText' rest depth with
          | .error err => .error err
          | .ok (restS, di) => .ok (pre ++ s ++ restS, di)

end

/-- `RenderElement::write_many`. -/
def writeMany (elements : List RenderElement) (depth : Nat) :
    Except WriteError (String × Bool) :=
  writeManyAux (!elements.isEmpty) false false elements depth

/-- `RenderElement::write_many_to_string` (depth 0, discarding the flag). -/
def writeManyToString (elements : List RenderElement) : Except WriteError String :=
  match writeMany elements 0 with
  | .error e => .error e
  | .ok (s, _) => .ok s

/-- `RenderElement::write_to_string` (a single element at depth 0). -/
def writeToString (e : RenderElement) : Except WriteError String :=
  e.write 0

mutual

/-- Re-expression of a render-ready node as an authoring `Element`
(the evident injection: `Tag`/`Text`/`Raw` map to themselves). -/
def renderToElement : RenderElement → Element
  | .tag n a c v => .tag n a (renderToElements c) v
  | .text t => .text t
  | .raw h => .raw h

/-- Elementwise `renderToElement` over a list. -/
def renderToElements : List RenderElement → List Element
  | [] => []
  | e :: rest => renderToElement e :: renderToElements rest

end

mutual

/-- Whether a render-ready node contains no `Text` node whose text is
exactly a newline, at any depth. -/
def noNlText : RenderElement → Bool
  | .tag _ _ c _ => noNlTextList c
  | .text t => !(t == "\n")
  | .raw _ => true

/-- Whether a list of render-ready nodes contains no newline-only `Text`
node at any depth. -/
def noNlTextList : List RenderElement → Bool
  | [] => true
  | e :: rest => noNlText e && noNlTextList rest

end

mutual

/-- Whether an authoring element is already normalized: at every depth it is
not `Empty`, not a `Fragment`, and not a `Text` node whose text is exactly a
newline. -/
def elementNormalized : Element → Bool
  | .empty => false
  | .tag _ _ c _ => elementsNormalized c
  | .fragment _ => false
  | .text t => !(t == "\n")
  | .raw _ => true

/-- Whether every element of a list is normalized at every depth. -/
def elementsNormalized : List Element → Bool
  | [] => true
  | e :: rest => elementNormalized e && elementsNormalized rest

end

mutual

/-- The elementwise corresponding render-ready node of a normalized
authoring element.  On the `Empty`/`Fragment` variants — which a normalized
element never contains — it returns an arbitrary placeholder. -/
def elemToRender : Element → RenderElement
  | .empty => .text ""
  | .tag n a c v => .tag n a (elemsToRender c) v
  | .fragment _ => .text ""
  | .text t => .text t
  | .raw h => .raw h

/-- Elementwise `elemToRender` over a list. -/
def elemsToRender : List Element → List RenderElement
  | [] => []
  | e :: rest => elemToRender e :: elemsToRender rest

end

/-! ### The attribute-string parser of `paxhtml/src/attribute.rs` -/

/-- Context of what was being parsed when an attribute error occurred
(`ParseContext` in `paxhtml/src/attribute.rs`). -/
inductive ParseContext where
  | expectedAttributeName
  | expectedAttributeValue
  | expectedQuoteOrValue
  deriving Repr, DecidableEq

/-- `AttributeParseError` from `paxhtml/src/attribute.rs`.  The `invalid`
constructor is the source's `InvalidSyntax` variant (carrying the unexpected
character, its position and the parse context); `unclosedQuote` carries the
quote character, the position of the opening quote and the partial value
parsed so far. -/
inductive AttributeParseError where
  | unclosedQuote (quote : Char) (position : Nat) (partValue : String)
  | invalid (unexpected : Char) (position : Nat) (context : ParseContext)
  deriving Repr, DecidableEq

/-- Model of Rust `char::is_alphanumeric` (Unicode alphabetic or numeric).
The model is exact on the Basic Latin and Latin-1 Supplement blocks
(codepoints below 0x100): besides the ASCII alphanumerics it covers the
Latin-1 letters, the superscript digits and the vulgar fractions
`¼`/`½`/`¾` (Unicode category No, hence numeric); theorems that rely on a
character being non-alphanumeric restrict themselves to that range. -/
def rustIsAlphanumeric (c : Char) : Bool :=
  c.isAlphanum ||
  (c = 'ª' || c = 'µ' || c = 'º' || c = '¹' || c = '²' || c = '³' ||
   c = '¼' || c = '½' || c = '¾' ||
   ('À' ≤ c && c ≤ 'Ö') || ('Ø' ≤ c && c ≤ 'ö') || ('ø' ≤ c && c ≤ 'ÿ'))

/-- The states of the `parse_from_str` character state machine
(`ParseState` in `paxhtml/src/attribute.rs`). -/
inductive AttrParseState where
  | beforeAttribute
  | inName
  | beforeEquals
  | afterEquals
  | inQuotedValue
  | inUnquotedValue
  deriving Repr, DecidableEq

/-- The mutable locals of the `parse_from_str` loop. -/
structure AttrConfig where
  attributes : List Attribute
  currentKey : List Char
  currentValue : Option (List Char)
  inQuotes : Bool
  quoteChar : Option Char
  quoteStartPos : Nat
  state : AttrParseState

/-- The `InName` whitespace lookahead of `parse_from_str`: peek forward for
an equals sign, stopping at the first non-whitespace character.  Whitespace
is Rust `char::is_whitespace`, modelled by `Char.isWhitespace` (exact on
ASCII). -/
def lookaheadEquals : List Char → Bool
  | [] => false
  | c :: rest =>
      if c = '=' then true
      else if !c.isWhitespace then false
      else lookaheadEquals rest

/-- Push the pending attribute (`Attribute::with_optional_value`). -/
def AttrConfig.pushAttr (cfg : AttrConfig) : List Attribute :=
  cfg.attributes ++ [⟨String.mk cfg.currentKey, cfg.currentValue.map String.mk⟩]

/-- The `while let Some((pos, c)) = chars.next()` loop of
`Attribute::parse_from_str`, one constructor case per `ParseState` arm,
followed by the end-of-input handling (unclosed quote, then final pending
attribute). -/
def attrRun : AttrConfig → Nat → List Char → Except AttributeParseError (List Attribute)
  | cfg, _, [] =>
      if cfg.inQuotes then
        .error (.unclosedQuote (cfg.quoteChar.getD ' ') cfg.quoteStartPos
          (String.mk (cfg.currentValue.getD [])))
      else if cfg.currentKey.isEmpty then .ok cfg.attributes
      else .ok cfg.pushAttr
  | cfg, pos, c :: rest =>
      match cfg.state with
      | .beforeAttribute =>
          if c = ' ' ∨ c = '\t' ∨ c = '\n' then attrRun cfg (pos + 1) rest
          else if c = '=' then .error (.invalid c pos .expectedAttributeName)
          else attrRun { cfg with currentKey := cfg.currentKey ++ [c], state := .inName } (pos + 1) rest
      | .inName =>
          if c = ' ' ∨ c = '\t' ∨ c = '\n' then
            if lookaheadEquals rest then
              attrRun { cfg with state := .beforeEquals } (pos + 1) rest
            else
              attrRun { cfg with attributes := cfg.attributes ++ [⟨String.mk cfg.currentKey, none⟩], currentKey := [], state := .beforeAttribute } (pos + 1) rest
          else if c = '=' then
            attrRun { cfg with state := .afterEquals, currentValue := some [] } (pos + 1) rest
          else attrRun { cfg with currentKey := cfg.currentKey ++ [c] } (pos + 1) rest
      | .beforeEquals =>
          if c = ' ' ∨ c = '\t' ∨ c = '\n' then attrRun cfg (pos + 1) rest
          else if c = '=' then
            attrRun { cfg with state := .afterEquals, currentValue := some [] } (pos + 1) rest
          else .error (.invalid c pos .expectedAttributeValue)
      | .afterEquals =>
          if c = ' ' ∨ c = '\t' ∨ c = '\n' then attrRun cfg (pos + 1) rest
          else if c = '"' ∨ c = '\'' then
            attrRun { cfg with quoteChar := some c, quoteStartPos := pos, inQuotes := true, state := .inQuotedValue } (pos + 1) rest
          else
            match cfg.currentValue with
            | some value =>
                if !rustIsAlphanumeric c && c ≠ '-' && c ≠ '_' then
                  .error (.invalid c pos .expectedQuoteOrValue)
                else
                  attrRun { cfg with currentValue := some (value ++ [c]), state := .inUnquotedValue } (pos + 1) rest
            | none => attrRun cfg (pos + 1) rest
      | .inQuotedValue =>
          if some c = cfg.quoteChar then
            attrRun { cfg with attributes := cfg.pushAttr, inQuotes := false, currentKey := [], currentValue := none, state := .beforeAttribute } (pos + 1) rest
          else
            match cfg.currentValue with
            | some value =>
                attrRun { cfg with currentValue := some (value ++ [c]) } (pos + 1) rest
            | none => attrRun cfg (pos + 1) rest
      | .inUnquotedValue =>
          if c = ' ' ∨ c = '\t' ∨ c = '\n' then
            attrRun { cfg with attributes := cfg.pushAttr, currentKey := [], currentValue := none, state := .beforeAttribute } (pos + 1) rest
          else if !rustIsAlphanumeric c && c ≠ '-' && c ≠ '_' then
            .error (.invalid c pos .expectedQuoteOrValue)
          else
            match cfg.currentValue with
            | some value =>
                attrRun { cfg with currentValue := some (value ++ [c]) } (pos + 1) rest
            | none => attrRun cfg (pos + 1) rest

/-- The initial configuration of `parse_from_str`. -/
def attrInit : AttrConfig :=
  ⟨[], [], none, false, none, 0, .beforeAttribute⟩

/-- `Attribute::parse_from_str`. -/
def parseFromStr (s : String) : Except AttributeParseError (List Attribute) :=
  attrRun attrInit 0 s.data

/-! ### The runtime markup parser of `paxhtml_parser/src/parser.rs` -/

/-- The opening-brace character, written by codepoint. -/
def lbrace : Char := Char.ofNat 123

/-- `ParseError` from `paxhtml_parser/src/parser.rs`: a message plus the
parser position at which the error was raised. -/
structure ParseError where
  message : String
  position : Nat
  deriving Repr, DecidableEq

/-- An attribute value in the markup AST (`AttributeValue` as used by
`parser.rs`/`eval.rs`): a string literal, or a code expression available
only to the compile-time macro (its token stream modelled as a string). -/
inductive AstAttributeValue where
  | literal (s : String)
  | expression (tokens : String)
  deriving Repr, DecidableEq

/-- `AstAttribute` from `paxhtml_parser/src/ast.rs`. -/
inductive AstAttribute where
  | named (name : String) (value : Option AstAttributeValue)
  | interpolated (tokens : String)
  deriving Repr, DecidableEq

/-- `AstNode` from `paxhtml_parser/src/ast.rs` (token streams modelled as
strings). -/
inductive AstNode where
  | element (name : String) (attributes : List AstAttribute)
      (children : List AstNode) (void : Bool)
  | fragment (children : List AstNode)
  | expression (body : String) (iterator : Bool)
  | text (t : String)

/-- Model of Rust `char::is_alphabetic`, exact on the Basic Latin and
Latin-1 Supplement blocks. -/
def rustIsAlphabetic (c : Char) : Bool :=
  c.isAlpha ||
  (c = 'ª' || c = 'µ' || c = 'º' ||
   ('À' ≤ c && c ≤ 'Ö') || ('Ø' ≤ c && c ≤ 'ö') || ('ø' ≤ c && c ≤ 'ÿ'))

/-- `Parser::skip_whitespace` (Rust `char::is_whitespace`, modelled by
`Char.isWhitespace`, exact on ASCII). -/
def skipWs : List Char → Nat → List Char × Nat
  | [], pos => ([], pos)
  | c :: rest, pos =>
      if c.isWhitespace then skipWs rest (pos + 1) else (c :: rest, pos)

/-- `Parser::expect`: consume one character and require it to be the
expected one; the error position reflects that `advance` has already moved
past a present character. -/
def expectChar (expected : Char) : List Char → Nat → Except ParseError (List Char × Nat)
  | [], pos =>
      .error ⟨"Expected '" ++ String.mk [expected] ++ "', found end of input", pos⟩
  | c :: rest, pos =>
      if c = expected then .ok (rest, pos + 1)
      else .error ⟨"Expected '" ++ String.mk [expected] ++ "', found '" ++
        String.mk [c] ++ "'", pos + 1⟩

/-- The tail loop of `Parser::parse_identifier`: subsequent characters may
be alphanumeric, underscore or hyphen. -/
def identTail : List Char → Nat → List Char → String × List Char × Nat
  | [], pos, acc => (String.mk acc, [], pos)
  | c :: rest, pos, acc =>
      if rustIsAlphanumeric c || c = '_' || c = '-' then
        identTail rest (pos + 1) (acc ++ [c])
      else (String.mk acc, c :: rest, pos)

/-- `Parser::parse_identifier`: the first character must be alphabetic or
an underscore. -/
def parseIdentifier : List Char → Nat → Except ParseError (String × List Char × Nat)
  | [], pos => .error ⟨"Expected identifier, found end of input", pos⟩
  | c :: rest, pos =>
      if rustIsAlphabetic c || c = '_' then
        .ok (identTail rest (pos + 1) [c])
      else .error ⟨"Expected identifier, found '" ++ String.mk [c] ++ "'", pos⟩

/-- The escape-sequence table of `Parser::parse_string_literal`: the
character following a backslash maps to newline, carriage return, tab,
backslash or double quote, and any other character maps to itself. -/
def escapeMap (c : Char) : Char :=
  if c = 'n' then '\n'
  else if c = 'r' then '\r'
  else if c = 't' then '\t'
  else if c = '\\' then '\\'
  else if c = '"' then '"'
  else c

/-- The body loop of `Parser::parse_string_literal` (after the opening
quote): ends at an unescaped double quote; a backslash consumes the next
character through `escapeMap`; end of input anywhere inside is an
unterminated-literal error. -/
def litLoop : List Char → Nat → Except ParseError (String × List Char × Nat)
  | [], pos => .error ⟨"Unterminated string literal", pos⟩
  | c :: rest, pos =>
      if c = '"' then .ok ("", rest, pos + 1)
      else if c = '\\' then
        match rest with
        | [] => .error ⟨"Unterminated string literal", pos + 1⟩
        | e :: rest2 =>
            match litLoop rest2 (pos + 2) with
            | .error err => .error err
            | .ok (v, rem, p) => .ok (String.mk [escapeMap e] ++ v, rem, p)
      else
        match litLoop rest (pos + 1) with
        | .error err => .error err
        | .ok (v, rem, p) => .ok (String.mk [c] ++ v, rem, p)

/-- `Parser::parse_string_literal`: an opening double quote, then the body
loop. -/
def parseStringLiteral (l : List Char) (pos : Nat) :
    Except ParseError (String × List Char × Nat) :=
  match expectChar '"' l pos with
  | .error e => .error e
  | .ok (rem, p) => litLoop rem p

/-- `Parser::parse_text`: a run of characters up to the next tag opener or
interpolation marker. -/
def parseText : List Char → Nat → String × List Char × Nat
  | [], pos => ("", [], pos)
  | c :: rest, pos =>
      if c = '<' ∨ c = lbrace then ("", c :: rest, pos)
      else
        let (t, rem, p) := parseText rest (pos + 1)
        (String.mk [c] ++ t, rem, p)

/-- The message of the runtime parser's interpolation rejection. -/
def interpMsg : String := "Interpolation is not supported in runtime HTML parsing"

/-- Word splitting modelling `convert_case` with its default boundaries:
separator characters (underscore, hyphen, space) are dropped, and a new
word starts at an uppercase letter following a lowercase one (LowerUpper),
at a digit following an uppercase letter (UpperDigit), at an uppercase or
lowercase letter following a digit (DigitUpper/DigitLower), and before the
last uppercase letter of an acronym run when a lowercase letter follows
(Acronym).  A digit following a lowercase letter is not a default boundary.
Letter classes and digits are modelled on ASCII. -/
def splitWordsAux : List Char → List Char → List (List Char)
  | acc, [] => if acc.isEmpty then [] else [acc]
  | acc, c :: rest =>
      if c = '_' ∨ c = '-' ∨ c = ' ' then
        (if acc.isEmpty then [] else [acc]) ++ splitWordsAux [] rest
      else
        match acc.getLast? with
        | none => splitWordsAux [c] rest
        | some p =>
            if p.isLower && c.isUpper then acc :: splitWordsAux [c] rest
            else if p.isUpper && c.isDigit then acc :: splitWordsAux [c] rest
            else if p.isDigit && (c.isUpper || c.isLower) then
              acc :: splitWordsAux [c] rest
            else if p.isUpper && c.isUpper &&
                (match rest with | r :: _ => r.isLower | [] => false) then
              acc :: splitWordsAux [c] rest
            else splitWordsAux (acc ++ [c]) rest

/-- Model of `convert_case`'s `to_case(Case::Kebab)` as applied to parsed
identifiers: split into words, lowercase each word and join with hyphens
(`Char.toLower` is exact on ASCII). -/
def toKebab (s : String) : String :=
  String.intercalate "-"
    ((splitWordsAux [] s.data).map (fun w => String.mk (w.map Char.toLower)))

/-- `Parser::parse_attribute`: reject interpolation, parse the identifier,
convert it from camelCase to kebab-case, then optionally an equals sign and
a string-literal value (rejecting interpolated values). -/
def parseAttribute (l : List Char) (pos : Nat) :
    Except ParseError (AstAttribute × List Char × Nat) :=
  if l.head? = some lbrace then .error ⟨interpMsg, pos⟩
  else
    match parseIdentifier l pos with
    | .error e => .error e
    | .ok (name, rem, p) =>
        let name := toKebab name
        let s₁ := skipWs rem p
        if s₁.1.head? = some '=' then
          let s₂ := skipWs s₁.1.tail (s₁.2 + 1)
          if s₂.1.head? = some lbrace then .error ⟨interpMsg, s₂.2⟩
          else
            match parseStringLiteral s₂.1 s₂.2 with
            | .error e => .error e
            | .ok (v, rem', p') => .ok (.named name (some (.literal v)), rem', p')
        else .ok (.named name none, s₁.1, s₁.2)

/-- The attribute loop of `Parser::parse_node`: parse attributes until a
`>` or `/`, skipping whitespace after each.  The fuel argument bounds the
number of iterations; each successful `parse_attribute` consumes at least
one character, so any fuel of at least the remaining input length behaves
as the unbounded source loop. -/
def parseAttrsLoop : Nat → List Char → Nat → Except ParseError (List AstAttribute × List Char × Nat)
  | 0, _, pos => .error ⟨"recursion limit exceeded", pos⟩
  | fuel + 1, l, pos =>
      match l.head? with
      | none => .ok ([], l, pos)
      | some c =>
          if c = '>' ∨ c = '/' then .ok ([], l, pos)
          else
            match parseAttribute l pos with
            | .error e => .error e
            | .ok (a, rem, p) =>
                let (rem, p) := skipWs rem p
                match parseAttrsLoop fuel rem p with
                | .error e => .error e
                | .ok (attrs, rem2, p2) => .ok (a :: attrs, rem2, p2)

mutual

/-- `Parser::parse_node`: rejects interpolation (`{` or `#{`), parses an
element, fragment or text run.  The fuel argument bounds recursion depth;
each recursive step consumes input, so any fuel of at least twice the input
length behaves as the source's unbounded recursion. -/
def parseNode : Nat → List Char → Nat → Except ParseError (AstNode × List Char × Nat)
  | 0, _, pos => .error ⟨"recursion limit exceeded", pos⟩
  | fuel + 1, l, pos =>
      let (l, pos) := skipWs l pos
      if l.head? = some lbrace then .error ⟨interpMsg, pos⟩
      else if l.head? = some '#' && l.tail.head? = some lbrace then
        .error ⟨interpMsg, pos⟩
      else if l.head? = some '<' then
        let l₁ := l.tail
        let p₁ := pos + 1
        if l₁.head? = some '>' then
          match parseChildren fuel none l₁.tail (p₁ + 1) with
          | .error e => .error e
          | .ok (children, rem, p) => .ok (.fragment children, rem, p)
        else if l₁.head? = some '/' then .error ⟨"Unexpected closing tag", p₁⟩
        else
          match parseIdentifier l₁ p₁ with
          | .error e => .error e
          | .ok (name, rem, p) =>
              let (rem, p) := skipWs rem p
              match parseAttrsLoop (rem.length + 1) rem p with
              | .error e => .error e
              | .ok (attributes, rem, p) =>
                  if rem.head? = some '/' then
                    let (rem2, p2) := skipWs rem.tail (p + 1)
                    match expectChar '>' rem2 p2 with
                    | .error e => .error e
                    | .ok (rem3, p3) => .ok (.element name attributes [] true, rem3, p3)
                  else
                    match expectChar '>' rem p with
                    | .error e => .error e
                    | .ok (rem2, p2) =>
                        match parseChildren fuel (some name) rem2 p2 with
                        | .error e => .error e
                        | .ok (children, rem3, p3) =>
                            .ok (.element name attributes children false, rem3, p3)
      else
        let (t, rem, p) := parseText l pos
        if t = "" then .error ⟨"Expected element or text", p⟩
        else .ok (.text t, rem, p)

/-- `Parser::parse_children`: collect child nodes until the matching
closing tag (a bare closing for fragments, the parent tag name otherwise)
or end of input. -/
def parseChildren : Nat → Option String → List Char → Nat → Except ParseError (List AstNode × List Char × Nat)
  | 0, _, _, pos => .error ⟨"recursion limit exceeded", pos⟩
  | fuel + 1, parentTag, l, pos =>
      let (l, pos) := skipWs l pos
      if l.head? = some '<' && l.tail.head? = some '/' then
        let rem := l.tail.tail
        let p := pos + 2
        match parentTag with
        | none =>
            let (rem, p) := skipWs rem p
            match expectChar '>' rem p with
            | .error e => .error e
            | .ok (rem2, p2) => .ok ([], rem2, p2)
        | some parent =>
            let (rem, p) := skipWs rem p
            match parseIdentifier rem p with
            | .error e => .error e
            | .ok (closeName, rem2, p2) =>
                if closeName ≠ parent then
                  .error ⟨"Mismatched closing tag: expected Some(\"" ++ parent ++
                    "\"), found '" ++ closeName ++ "'", p2⟩
                else
                  let (rem3, p3) := skipWs rem2 p2
                  match expectChar '>' rem3 p3 with
                  | .error e => .error e
                  | .ok (rem4, p4) => .ok ([], rem4, p4)
      else if l.isEmpty then
        match parentTag with
        | some parent =>
            .error ⟨"Unclosed tag: expected closing tag for '" ++ parent ++ "'", pos⟩
        | none => .ok ([], l, pos)
      else
        match parseNode fuel l pos with
        | .error e => .error e
        | .ok (n, rem, p) =>
            match parseChildren fuel parentTag rem p with
            | .error e => .error e
            | .ok (ns, rem2, p2) => .ok (n :: ns, rem2, p2)

end

/-- `paxhtml_parser::parse_html`: parse one node, skip trailing whitespace
and require the whole input to be consumed. -/
def parseHtmlAst (input : String) : Except ParseError AstNode :=
  let l := input.data
  match parseNode (2 * l.length + 2) l 0 with
  | .error e => .error e
  | .ok (node, rem, p) =>
      let (rem2, p2) := skipWs rem p
      if rem2.isEmpty then .ok node
      else .error ⟨"Unexpected content after root element", p2⟩

/-! ### The AST evaluator of `paxhtml/src/eval.rs` -/

/-- `EvalError` from `paxhtml/src/eval.rs`. -/
inductive EvalError where
  | interpolationNotSupported
  | expressionAttributeNotSupported
  deriving Repr, DecidableEq

/-- `ParseHtmlError` from `paxhtml/src/eval.rs`: either a syntax error from
the markup parser or an evaluation error. -/
inductive ParseHtmlError where
  | parse (e : ParseError)
  | eval (e : EvalError)
  deriving Repr, DecidableEq

/-- `eval_attribute` from `paxhtml/src/eval.rs`. -/
def evalAttribute : AstAttribute → Except EvalError Attribute
  | .named name value =>
      match value with
      | none => .ok ⟨name, none⟩
      | some (.literal lit) => .ok ⟨name, some lit⟩
      | some (.expression _) => .error .expressionAttributeNotSupported
  | .interpolated _ => .error .interpolationNotSupported

/-- The attribute loop of `eval_node`. -/
def evalAttributes : List AstAttribute → Except EvalError (List Attribute)
  | [] => .ok []
  | a :: rest =>
      match evalAttribute a with
      | .error e => .error e
      | .ok a' =>
          match evalAttributes rest with
          | .error e => .error e
          | .ok rest' => .ok (a' :: rest')

mutual

/-- `eval_node` from `paxhtml/src/eval.rs`: convert an AST node to a
runtime `Element`, rejecting `Expression` nodes. -/
def evalNode : AstNode → Except EvalError Element
  | .element name attributes children void =>
      match evalAttributes attributes with
      | .error e => .error e
      | .ok attrs =>
          match evalNodes children with
          | .error e => .error e
          | .ok cs => .ok (.tag name attrs cs void)
  | .fragment children =>
      match evalNodes children with
      | .error e => .error e
      | .ok cs => .ok (.fragment cs)
  | .expression _ _ => .error .interpolationNotSupported
  | .text t => .ok (.text t)

/-- The child loop of `eval_node`. -/
def evalNodes : List AstNode → Except EvalError (List Element)
  | [] => .ok []
  | n :: rest =>
      match evalNode n with
      | .error e => .error e
      | .ok n' =>
          match evalNodes rest with
          | .error e => .error e
          | .ok rest' => .ok (n' :: rest')

end

/-- `paxhtml::parse_html` from `paxhtml/src/eval.rs`: runtime parsing of an
externally supplied HTML string into an `Element`. -/
def parseHtml (input : String) : Except ParseHtmlError Element :=
  match parseHtmlAst input with
  | .error e => .error (.parse e)
  | .ok ast =>
      match evalNode ast with
      | .error e => .error (.eval e)
      | .ok el => .ok el

/-- Whether a runtime parse failed with an evaluation-class error. -/
def isEvalError : Except ParseHtmlError Element → Bool
  | .error (.eval _) => true
  | _ => false

/-- The invariant maintained by every reachable configuration of the
`parse_from_str` state machine: the `in_quotes` flag tracks the
`InQuotedValue` state, an open quote records a valid quote character and a
pending value buffer, and the value-reading states carry a value buffer
(freshly emptied on entering `AfterEquals`). -/
def AttrInv (cfg : AttrConfig) : Prop :=
  (cfg.inQuotes = true ↔ cfg.state = .inQuotedValue) ∧
  (cfg.state = .inQuotedValue →
    ∃ qc, cfg.quoteChar = some qc ∧ (qc = '"' ∨ qc = '\'') ∧
      ∃ v, cfg.currentValue = some v) ∧
  (cfg.state = .afterEquals → cfg.currentValue = some []) ∧
  (cfg.state = .inUnquotedValue → ∃ v, cfg.currentValue = some v)

/-! ## Theorems -/

/-- C1: rendering a `div` tag whose children are two sibling `p` tags (each
containing a single `Text` child, "Hello" and "World") as the sole
top-level element produces exactly
`<div>\n  <p>Hello</p>\n  <p>World</p>\n</div>`: each block-level child and
the closing tag are preceded by a newline plus two-space indents for the
current depth, while the top-level `div` itself (depth 0) is preceded by no
newline or indentation. -/
theorem c1_render_div_with_two_p_children :
    writeManyToString
      [RenderElement.tag "div" []
        [.tag "p" [] [.text "Hello"] false, .tag "p" [] [.text "World"] false]
        false] =
    .ok "<div>\n  <p>Hello</p>\n  <p>World</p>\n</div>" := by
  rfl

/-- C2: for every `Tag` render element with `void = true`, `write` emits
only the opening tag when the children list is empty, and returns an
`InvalidInput`-class error carrying the offending node when the children
list is non-empty (so the whole write fails); concretely,
`Tag{"br", [], [], void: true}` renders to `<br>` with no self-closing
slash and no closing tag. -/
theorem c2_void_element_write :
    (∀ (name : String) (attrs : List Attribute) (children : List RenderElement)
      (depth : Nat),
      RenderElement.write (.tag name attrs children true) depth =
        if children.isEmpty then .ok ("<" ++ name ++ attrsString attrs ++ ">")
        else .error (.invalidInput (.tag name attrs children true))) ∧
    writeToString (.tag "br" [] [] true) = .ok "<br>" := by
  refine ⟨fun name attrs children depth => ?_, rfl⟩
  cases children <;> simp [RenderElement.write]

/-- C3 counterexample: runtime parsing of `<div>{expr}</div>` does fail, but
the error is the markup parser's ordinary `ParseError` (position 5, with a
message naming interpolation) wrapped as `ParseHtmlError::Parse` — it is not
one of the `EvalError` variants `InterpolationNotSupported` /
`ExpressionAttributeNotSupported` the claim names. -/
theorem c3_runtime_interpolation_counterexample :
    parseHtml "<div>{expr}</div>" = .error (.parse ⟨interpMsg, 5⟩) ∧
    isEvalError (parseHtml "<div>{expr}</div>") = false :=
  ⟨rfl, rfl⟩

/-- C3 (amended): runtime parsing of externally supplied HTML containing an
interpolation never yields a successful `Element`; the runtime markup
parser itself rejects the construct with a `ParseError` whose message is
"Interpolation is not supported in runtime HTML parsing" (surfaced as the
`Parse` variant of `ParseHtmlError`), while the distinct `EvalError`
variants `InterpolationNotSupported` / `ExpressionAttributeNotSupported`
are produced by `eval_node` / `eval_attribute` only when they are handed an
AST (from the compile-time path) containing `Expression` or `Interpolated`
nodes. -/
theorem c3_runtime_interpolation_amended :
    parseHtml "<div>{expr}</div>" = .error (.parse ⟨interpMsg, 5⟩) ∧
    (∀ (body : String) (it : Bool),
      evalNode (.expression body it) = .error .interpolationNotSupported) ∧
    (∀ (name : String) (tokens : String),
      evalAttribute (.named name (some (.expression tokens))) =
        .error .expressionAttributeNotSupported) ∧
    (∀ tokens : String,
      evalAttribute (.interpolated tokens) = .error .interpolationNotSupported) :=
  ⟨rfl, fun _ _ => rfl, fun _ _ => rfl, fun _ => rfl⟩

/-- C5 counterexample: the claim restricts unquoted attribute values to
ASCII alphanumerics, `-` and `_`, but `parse_from_str` accepts the
non-ASCII letter `é` (Rust `char::is_alphanumeric` is Unicode-wide):
parsing `a=é` succeeds with value `é` instead of failing with
`InvalidSyntax`. -/
theorem c5_unquoted_value_counterexample :
    parseFromStr "a=é" = .ok [⟨"a", some "é"⟩] ∧
    ('é'.isAlphanum || 'é' == '-' || 'é' == '_') = false :=
  ⟨rfl, rfl⟩

/-- C7: every attribute accepted by the markup parser has its identifier
converted from camelCase to kebab-case, unconditionally: any successful
`parse_attribute` yields a `Named` attribute whose name is `toKebab` of the
identifier parsed at that position (whether or not a value follows);
concretely `myAttribute` becomes `my-attribute`. -/
theorem c7_attribute_names_kebab_cased :
    (∀ (l : List Char) (pos : Nat) (a : AstAttribute) (rem : List Char) (p : Nat),
      parseAttribute l pos = .ok (a, rem, p) →
      ∃ (ident : String) (rem₁ : List Char) (p₁ : Nat)
        (v : Option AstAttributeValue),
        parseIdentifier l pos = .ok (ident, rem₁, p₁) ∧
        a = .named (toKebab ident) v) ∧
    toKebab "myAttribute" = "my-attribute" ∧
    parseAttribute "myAttribute=\"x\"".data 0 =
      .ok (.named "my-attribute" (some (.literal "x")), [], 15) := by
  refine ⟨fun l pos a rem p h => ?_, rfl, rfl⟩
  by_cases hb : l.head? = some lbrace
  · simp [parseAttribute, hb] at h
  · cases hid : parseIdentifier l pos with
    | error e => simp [parseAttribute, hb, hid] at h
    | ok r =>
        obtain ⟨ident, rem₁, p₁⟩ := r
        by_cases heq : (skipWs rem₁ p₁).1.head? = some '='
        · by_cases hbr : (skipWs (skipWs rem₁ p₁).1.tail
              ((skipWs rem₁ p₁).2 + 1)).1.head? = some lbrace
          · simp [parseAttribute, hb, hid, heq, hbr] at h
          · cases hlit : parseStringLiteral
                (skipWs (skipWs rem₁ p₁).1.tail ((skipWs rem₁ p₁).2 + 1)).1
                (skipWs (skipWs rem₁ p₁).1.tail ((skipWs rem₁ p₁).2 + 1)).2 with
            | error e => simp [parseAttribute, hb, hid, heq, hbr, hlit] at h
            | ok r₂ =>
                simp only [parseAttribute, hb, hid, heq, hbr, hlit, if_true,
                  if_false, Except.ok.injEq, Prod.mk.injEq, reduceIte] at h
                obtain ⟨h1, -, -⟩ := h
                exact ⟨ident, rem₁, p₁, some (.literal r₂.1), rfl, h1.symm⟩
        · simp only [parseAttribute, hb, hid, heq, Except.ok.injEq,
            Prod.mk.injEq, reduceIte, if_false] at h
          obtain ⟨h1, -, -⟩ := h
          exact ⟨ident, rem₁, p₁, none, rfl, h1.symm⟩

/-- C7 witness: the kebab-case clause instantiated at the concrete input
`myAttribute` (parsed as a valueless attribute named `my-attribute`). -/
theorem c7_attribute_names_kebab_cased_witness :
    ∃ (ident : String) (rem₁ : List Char) (p₁ : Nat)
      (v : Option AstAttributeValue),
      parseIdentifier "myAttribute".data 0 = .ok (ident, rem₁, p₁) ∧
      AstAttribute.named "my-attribute" none = .named (toKebab ident) v :=
  c7_attribute_names_kebab_cased.1 "myAttribute".data 0
    (.named "my-attribute" none) [] 11 rfl

/-- C9: in the markup parser's double-quoted string literal, the escape
sequences backslash-n, -r, -t, backslash-backslash and backslash-quote
produce newline, carriage return, tab, backslash and double quote; a
backslash followed by any other character produces that character itself;
and end of input inside the literal (including right after a backslash) is
an "Unterminated string literal" error. -/
theorem c9_string_literal_escapes :
    parseStringLiteral "\"a\\nb\"".data 0 = .ok ("a\nb", [], 6) ∧
    parseStringLiteral "\"a\\rb\"".data 0 = .ok ("a\rb", [], 6) ∧
    parseStringLiteral "\"a\\tb\"".data 0 = .ok ("a\tb", [], 6) ∧
    parseStringLiteral "\"a\\\\b\"".data 0 = .ok ("a\\b", [], 6) ∧
    parseStringLiteral "\"a\\\"b\"".data 0 = .ok ("a\"b", [], 6) ∧
    (∀ c : Char, c ∉ ['n', 'r', 't', '\\', '"'] →
      parseStringLiteral ['"', '\\', c, '"'] 0 = .ok (String.mk [c], [], 4)) ∧
    parseStringLiteral "\"abc".data 0 = .error ⟨"Unterminated string literal", 4⟩ ∧
    parseStringLiteral "\"ab\\".data 0 = .error ⟨"Unterminated string literal", 4⟩ := by
  refine ⟨rfl, rfl, rfl, rfl, rfl, fun c hc => ?_, rfl, rfl⟩
  simp only [List.mem_cons, not_or] at hc
  obtain ⟨h1, h2, h3, h4, h5, -⟩ := hc
  have hq : c ≠ '"' := h5
  simp [parseStringLiteral, expectChar, litLoop, escapeMap, h1, h2, h3, h4, h5, hq]

/-- C9 witness: instantiating the generic-escape clause at the character
`x`. -/
theorem c9_string_literal_escapes_witness :
    parseStringLiteral ['"', '\\', 'x', '"'] 0 = .ok ("x", [], 4) :=
  c9_string_literal_escapes.2.2.2.2.2.1 'x' (by decide)

mutual

/-- A normalized element's loop-body contribution is exactly its
corresponding render element. -/
theorem fromElement_normalized (e : Element) (h : elementNormalized e = true) :
    fromElement e = [elemToRender e] := by
  cases e with
  | empty => simp [elementNormalized] at h
  | tag n a c v =>
      have h' : elementsNormalized c = true := by
        simpa [elementNormalized] using h
      simp [fromElement, elemToRender, fromElements_normalized c h']
  | fragment c => simp [elementNormalized] at h
  | text t =>
      have h' : ¬t = "\n" := by simpa [elementNormalized] using h
      simp [fromElement, elemToRender, h']
  | raw s => simp [fromElement, elemToRender]

/-- Normalizing an already-normalized element list is the elementwise
correspondence. -/
theorem fromElements_normalized (es : List Element)
    (h : elementsNormalized es = true) : fromElements es = elemsToRender es := by
  cases es with
  | nil => simp [fromElements, elemsToRender]
  | cons e rest =>
      have h' := h
      simp only [elementsNormalized, Bool.and_eq_true] at h'
      simp [fromElements, elemsToRender, fromElement_normalized e h'.1,
        fromElements_normalized rest h'.2]

end

mutual

/-- Re-normalizing a render element re-expressed as an authoring element
recovers exactly that element, provided it has no newline-only text node. -/
theorem fromElement_renderToElement (e : RenderElement) (h : noNlText e = true) :
    fromElement (renderToElement e) = [e] := by
  cases e with
  | tag n a c v =>
      have h' : noNlTextList c = true := by simpa [noNlText] using h
      simp [renderToElement, fromElement, fromElements_renderToElements c h']
  | text t =>
      have h' : ¬t = "\n" := by simpa [noNlText] using h
      simp [renderToElement, fromElement, h']
  | raw s => simp [renderToElement, fromElement]

/-- Re-normalizing a render-element list re-expressed as authoring elements
recovers exactly that list, provided no newline-only text nodes occur. -/
theorem fromElements_renderToElements (rs : List RenderElement)
    (h : noNlTextList rs = true) : fromElements (renderToElements rs) = rs := by
  cases rs with
  | nil => simp [renderToElements, fromElements]
  | cons e rest =>
      have h' := h
      simp only [noNlTextList, Bool.and_eq_true] at h'
      simp [renderToElements, fromElements, fromElement_renderToElement e h'.1,
        fromElements_renderToElements rest h'.2]

end

/-- The list helper `elemsToRender` is the elementwise map. -/
theorem elemsToRender_eq_map (es : List Element) :
    elemsToRender es = es.map elemToRender := by
  induction es with
  | nil => rfl
  | cons e rest ih => simp [elemsToRender, ih]

/-- The list helper `renderToElements` is the elementwise map. -/
theorem renderToElements_eq_map (rs : List RenderElement) :
    renderToElements rs = rs.map renderToElement := by
  induction rs with
  | nil => rfl
  | cons e rest ih => simp [renderToElements, ih]

/-- C4: normalization is idempotent.  For every list of authoring elements
that at every depth contains no `Empty`, no `Fragment` and no `Text` node
whose text is exactly a newline, `from_elements` maps it to the elementwise
corresponding render-element list; equivalently, re-normalizing an
already-normalized tree re-expressed as `Element`s yields the identical
tree. -/
theorem c4_normalization_idempotent :
    (∀ es : List Element, elementsNormalized es = true →
      fromElements es = es.map elemToRender) ∧
    (∀ rs : List RenderElement, noNlTextList rs = true →
      fromElements (rs.map renderToElement) = rs) := by
  constructor
  · intro es h
    rw [← elemsToRender_eq_map]
    exact fromElements_normalized es h
  · intro rs h
    rw [← renderToElements_eq_map]
    exact fromElements_renderToElements rs h

/-- C4 witness: both clauses instantiated at a concrete normalized list
containing a text node, a nested tag and a raw node. -/
theorem c4_normalization_idempotent_witness :
    fromElements [Element.text "hi", Element.tag "p" [] [Element.text "x"] false] =
      [Element.text "hi", Element.tag "p" [] [Element.text "x"] false].map
        elemToRender ∧
    fromElements
      ([RenderElement.text "hi",
        RenderElement.tag "p" [] [RenderElement.raw "r"] false].map
          renderToElement) =
      [RenderElement.text "hi",
       RenderElement.tag "p" [] [RenderElement.raw "r"] false] :=
  ⟨c4_normalization_idempotent.1 _ (by decide),
   c4_normalization_idempotent.2 _ (by decide)⟩

/-- Running the attribute machine in the `InName` state over non-whitespace
non-equals name characters followed by a final `=` at end of input yields
the pending attributes plus one attribute whose key is the accumulated name
and whose value is the empty string. -/
theorem attrRun_inName_final_equals (tail : List Char) :
    ∀ (A : List Attribute) (k : List Char) (pos : Nat), k ≠ [] →
    (∀ c ∈ tail, c ≠ ' ' ∧ c ≠ '\t' ∧ c ≠ '\n' ∧ c ≠ '=') →
    attrRun ⟨A, k, none, false, none, 0, .inName⟩ pos (tail ++ ['=']) =
      .ok (A ++ [⟨String.mk (k ++ tail), some ""⟩]) := by
  induction tail with
  | nil =>
      intro A k pos hk _
      have hk' : k.isEmpty = false := by
        cases k with
        | nil => exact absurd rfl hk
        | cons a b => rfl
      simp [attrRun, AttrConfig.pushAttr, hk']
  | cons c rest ih =>
      intro A k pos hk hall
      obtain ⟨hc1, hc2, hc3, hc4⟩ := hall c (by simp)
      have step : attrRun ⟨A, k, none, false, none, 0, .inName⟩ pos
          ((c :: rest) ++ ['=']) =
          attrRun ⟨A, k ++ [c], none, false, none, 0, .inName⟩ (pos + 1)
            (rest ++ ['=']) := by
        simp [attrRun, hc1, hc2, hc3, hc4]
      rw [step, ih A (k ++ [c]) (pos + 1) (by simp)
        (fun d hd => hall d (by simp [hd]))]
      simp

/-- C10: an input that ends immediately after an equals sign (for example
`a=` or `a = `) is not an error: `parse_from_str` yields one attribute whose
key is the name and whose value is `Some("")`, the empty string. -/
theorem c10_equals_at_end_of_input :
    parseFromStr "a=" = .ok [⟨"a", some ""⟩] ∧
    parseFromStr "a = " = .ok [⟨"a", some ""⟩] ∧
    (∀ nm : List Char, nm ≠ [] →
      (∀ c ∈ nm, c ≠ ' ' ∧ c ≠ '\t' ∧ c ≠ '\n' ∧ c ≠ '=') →
      attrRun attrInit 0 (nm ++ ['=']) = .ok [⟨String.mk nm, some ""⟩]) := by
  refine ⟨rfl, rfl, fun nm hnm hall => ?_⟩
  cases nm with
  | nil => exact absurd rfl hnm
  | cons c rest =>
      obtain ⟨hc1, hc2, hc3, hc4⟩ := hall c (by simp)
      have step : attrRun attrInit 0 ((c :: rest) ++ ['=']) =
          attrRun ⟨[], [c], none, false, none, 0, .inName⟩ 1 (rest ++ ['=']) := by
        simp [attrRun, attrInit, hc1, hc2, hc3, hc4]
      rw [step, attrRun_inName_final_equals rest [] [c] 1 (by simp)
        (fun d hd => hall d (by simp [hd]))]
      simp

/-- C10 witness: the general clause instantiated at the single-character
name `a`. -/
theorem c10_equals_at_end_of_input_witness :
    attrRun attrInit 0 (['a'] ++ ['=']) = .ok [⟨String.mk ['a'], some ""⟩] :=
  c10_equals_at_end_of_input.2.2 ['a'] (by decide) (by decide)

/-- C5 (amended): `parse_from_str` accepts in unquoted attribute values
exactly the characters satisfying Rust `char::is_alphanumeric` — Unicode
alphanumerics, not only ASCII — plus `-` and `_`.  Any other character
(other than value-terminating whitespace, or an opening quote directly
after the equals sign) occurring as the first value character after `=` or
inside an unquoted value makes parsing fail with
`InvalidSyntax{ExpectedQuoteOrValue}` reporting that character and its
position.  (The alphanumeric model is exact for codepoints below 0x100,
hence the range hypothesis.) -/
theorem c5_unquoted_value_charset :
    (∀ (cfg : AttrConfig) (pos : Nat) (c : Char) (rest : List Char)
      (v : List Char),
      cfg.state = .afterEquals → cfg.currentValue = some v →
      c.toNat < 256 → rustIsAlphanumeric c = false → c ≠ '-' → c ≠ '_' →
      c ≠ ' ' → c ≠ '\t' → c ≠ '\n' → c ≠ '"' → c ≠ '\'' →
      attrRun cfg pos (c :: rest) =
        .error (.invalid c pos .expectedQuoteOrValue)) ∧
    (∀ (cfg : AttrConfig) (pos : Nat) (c : Char) (rest : List Char),
      cfg.state = .inUnquotedValue →
      c.toNat < 256 → rustIsAlphanumeric c = false → c ≠ '-' → c ≠ '_' →
      c ≠ ' ' → c ≠ '\t' → c ≠ '\n' →
      attrRun cfg pos (c :: rest) =
        .error (.invalid c pos .expectedQuoteOrValue)) ∧
    parseFromStr "id=test!" = .error (.invalid '!' 7 .expectedQuoteOrValue) := by
  refine ⟨fun cfg pos c rest v hst hcv _ halpha h1 h2 h3 h4 h5 h6 h7 => ?_,
    fun cfg pos c rest hst _ halpha h1 h2 h3 h4 h5 => ?_, rfl⟩
  · simp [attrRun, hst, hcv, halpha, h1, h2, h3, h4, h5, h6, h7]
  · simp [attrRun, hst, halpha, h1, h2, h3, h4, h5]

/-- C5 witness: both machine-state clauses instantiated at the disallowed
character `!` in concrete configurations (as reached while parsing
`id=!` and `id=test!`). -/
theorem c5_unquoted_value_charset_witness :
    attrRun ⟨[], ['i', 'd'], some [], false, none, 0, .afterEquals⟩ 3 ['!'] =
      .error (.invalid '!' 3 .expectedQuoteOrValue) ∧
    attrRun ⟨[], ['i', 'd'], some ['t', 'e', 's', 't'], false, none, 0,
        .inUnquotedValue⟩ 7 ['!'] =
      .error (.invalid '!' 7 .expectedQuoteOrValue) :=
  ⟨c5_unquoted_value_charset.1 _ 3 '!' [] [] rfl rfl (by decide) (by decide)
      (by decide) (by decide) (by decide) (by decide) (by decide) (by decide)
      (by decide),
   c5_unquoted_value_charset.2.1 _ 7 '!' [] rfl (by decide) (by decide)
      (by decide) (by decide) (by decide) (by decide) (by decide)⟩

/-- The newline split always produces at least one part. -/
theorem splitOnNl_ne_nil (u : List Char) : splitOnNl u ≠ [] := by
  cases u with
  | nil => simp [splitOnNl]
  | cons c rest => simp only [splitOnNl]; split <;> simp

/-- Appending one character to the input either appends a fresh empty part
(for a newline) or extends the last part. -/
theorem splitOnNl_concat (u : List Char) (c : Char) :
    splitOnNl (u ++ [c]) =
      if c = '\n' then splitOnNl u ++ [[]]
      else (splitOnNl u).dropLast ++ [(splitOnNl u).getLastD [] ++ [c]] := by
  induction u with
  | nil => by_cases hc : c = '\n' <;> simp [splitOnNl, hc]
  | cons d u' ih =>
      obtain ⟨s₀, S', hS⟩ : ∃ s₀ S', splitOnNl u' = s₀ :: S' := by
        cases h : splitOnNl u' with
        | nil => exact absurd h (splitOnNl_ne_nil u')
        | cons a t => exact ⟨a, t, rfl⟩
      by_cases hc : c = '\n'
      · subst hc
        rw [if_pos rfl] at ih ⊢
        by_cases hd : d = '\n'
        · subst hd; simp [splitOnNl, ih, hS]
        · simp [splitOnNl, ih, hS, hd]
      · rw [if_neg hc] at ih ⊢
        by_cases hd : d = '\n'
        · subst hd
          cases S' with
          | nil => simp [splitOnNl, ih, hS]
          | cons s₁ S'' => simp [splitOnNl, ih, hS]
        · cases S' with
          | nil => simp [splitOnNl, ih, hS, hd]
          | cons s₁ S'' => simp [splitOnNl, ih, hS, hd]

/-- Splitting around an explicit newline concatenates the splits of the two
sides. -/
theorem splitOnNl_append_nl (x y : List Char) :
    splitOnNl (x ++ '\n' :: y) = splitOnNl x ++ splitOnNl y := by
  induction x with
  | nil => simp [splitOnNl]
  | cons d x' ih =>
      obtain ⟨s₀, S', hS⟩ : ∃ s₀ S', splitOnNl x' = s₀ :: S' := by
        cases h : splitOnNl x' with
        | nil => exact absurd h (splitOnNl_ne_nil x')
        | cons a t => exact ⟨a, t, rfl⟩
      by_cases hd : d = '\n' <;> simp [splitOnNl, ih, hS, hd]

/-- Escaping distributes over append. -/
theorem escapeTextL_append (x y : List Char) :
    escapeTextL (x ++ y) = escapeTextL x ++ escapeTextL y := by
  simp [escapeTextL]

/-- A single character always escapes to a non-empty string. -/
theorem escChar_ne_nil (c : Char) : escChar c ≠ [] := by
  unfold escChar; split_ifs <;> simp

/-- Escaping a single character. -/
theorem escapeTextL_singleton (c : Char) : escapeTextL [c] = escChar c := by
  simp [escapeTextL]

/-- Escaping cannot introduce a given trailing character other than the
semicolon: if the text does not end in `c` (and `c` is not `;`), neither
does its escape. -/
theorem escapeTextL_getLast_ne (t : List Char) (c : Char)
    (h : t.getLast? ≠ some c) (hsemi : c ≠ ';') :
    (escapeTextL t).getLast? ≠ some c := by
  rcases List.eq_nil_or_concat t with rfl | ⟨t₀, x, rfl⟩
  · simp [escapeTextL]
  · rw [List.concat_eq_append] at h ⊢
    rw [escapeTextL_append, escapeTextL_singleton,
      List.getLast?_append_of_ne_nil _ (escChar_ne_nil x)]
    rw [List.getLast?_concat] at h
    have hx : x ≠ c := fun hxc => h (by rw [hxc])
    have hsemi' : ';' ≠ c := Ne.symm hsemi
    unfold escChar
    split_ifs <;> simp [hx, hsemi']

/-- Stripping the trailing carriage return of the last newline part is the
identity when the underlying text does not end in a carriage return. -/
theorem stripCr_getLastD_splitOnNl (A : List Char)
    (h : A.getLast? ≠ some '\r') :
    stripCr ((splitOnNl A).getLastD []) = (splitOnNl A).getLastD [] := by
  rcases List.eq_nil_or_concat A with rfl | ⟨A₀, c, rfl⟩
  · simp [splitOnNl, stripCr]
  · rw [List.concat_eq_append] at h ⊢
    rw [List.getLast?_concat] at h
    have hc : c ≠ '\r' := fun hcc => h (by rw [hcc])
    rw [splitOnNl_concat]
    by_cases hnl : c = '\n'
    · simp [hnl, stripCr]
    · simp [hnl, stripCr, hc]

/-- The last-part default over an append with non-empty right factor. -/
theorem getLastD_append_right (l₁ l₂ : List (List Char)) (h : l₂ ≠ [])
    (d : List Char) : (l₁ ++ l₂).getLastD d = l₂.getLastD d := by
  simp [List.getLastD_eq_getLast?, List.getLast?_append_of_ne_nil _ h]

/-- Dropping the last element over an append with non-empty right factor. -/
theorem dropLast_append_right (l₁ l₂ : List (List Char)) (h : l₂ ≠ []) :
    (l₁ ++ l₂).dropLast = l₁ ++ l₂.dropLast := by
  rw [List.dropLast_append_of_ne_nil _ h]

/-- Emitting text with one more trailing newline emits the same output,
provided the text did not already end in a newline or carriage return. -/
theorem writeTextL_trailing_nl (t : List Char)
    (h1 : t.getLast? ≠ some '\n') (h2 : t.getLast? ≠ some '\r') :
    writeTextL (t ++ ['\n']) = writeTextL t := by
  unfold writeTextL
  rw [escapeTextL_append]
  have e1 : escapeTextL ['\n'] = ['\n'] := rfl
  rw [e1]
  have hu1 : (escapeTextL t).getLast? ≠ some '\n' :=
    escapeTextL_getLast_ne t '\n' h1 (by decide)
  have hu2 : (escapeTextL t).getLast? ≠ some '\r' :=
    escapeTextL_getLast_ne t '\r' h2 (by decide)
  generalize escapeTextL t = u at hu1 hu2
  rcases List.eq_nil_or_concat u with rfl | ⟨u₀, c, rfl⟩
  · rfl
  · rw [List.concat_eq_append] at hu1 hu2 ⊢
    rw [List.getLast?_concat] at hu1 hu2
    have hc1 : c ≠ '\n' := fun h => hu1 (by rw [h])
    have hc2 : c ≠ '\r' := fun h => hu2 (by rw [h])
    unfold rustLines
    rw [splitOnNl_concat (u₀ ++ [c]) '\n', if_pos rfl,
      splitOnNl_concat u₀ c, if_neg hc1]
    have hstrip : stripCr ((splitOnNl u₀).getLast?.getD [] ++ [c]) =
        (splitOnNl u₀).getLast?.getD [] ++ [c] := by
      simp [stripCr, hc2]
    simp [List.dropLast_concat, getLastD_append_right, hstrip]

/-- Emitting text with an internal CRLF emits the same output as with a
bare LF, provided the part before it does not end in a carriage return. -/
theorem writeTextL_crlf (a b : List Char) (h : a.getLast? ≠ some '\r') :
    writeTextL (a ++ '\r' :: '\n' :: b) = writeTextL (a ++ '\n' :: b) := by
  unfold writeTextL
  have e1 : a ++ '\r' :: '\n' :: b = (a ++ ['\r']) ++ '\n' :: b := by simp
  rw [e1, escapeTextL_append (a ++ ['\r']), escapeTextL_append a,
    escapeTextL_append a]
  have e2 : escapeTextL ['\r'] = ['\r'] := rfl
  have e3 : escapeTextL ('\n' :: b) = '\n' :: escapeTextL b := rfl
  rw [e2, e3]
  have hA : (escapeTextL a).getLast? ≠ some '\r' :=
    escapeTextL_getLast_ne a '\r' h (by decide)
  generalize escapeTextL a = A at hA
  generalize escapeTextL b = B
  unfold rustLines
  rw [show A ++ ['\r'] ++ '\n' :: B = (A ++ ['\r']) ++ '\n' :: B from by simp,
    splitOnNl_append_nl (A ++ ['\r']) B, splitOnNl_append_nl A B,
    splitOnNl_concat A '\r', if_neg (by decide)]
  have hSB := splitOnNl_ne_nil B
  have hSA := splitOnNl_ne_nil A
  have decompA : splitOnNl A = (splitOnNl A).dropLast ++
      [(splitOnNl A).getLastD []] := by
    rcases List.eq_nil_or_concat (splitOnNl A) with hA' | ⟨L, x, hA'⟩
    · exact absurd hA' hSA
    · rw [List.concat_eq_append] at hA'
      rw [hA']
      simp [List.dropLast_concat]
  have hstrip1 : stripCr ((splitOnNl A).getLast?.getD [] ++ ['\r']) =
      (splitOnNl A).getLast?.getD [] := by
    simp [stripCr]
  have hstrip2 : stripCr ((splitOnNl A).getLast?.getD []) =
      (splitOnNl A).getLast?.getD [] := by
    have := stripCr_getLastD_splitOnNl A hA
    simpa [List.getLastD_eq_getLast?] using this
  rw [dropLast_append_right _ _ hSB, dropLast_append_right _ _ hSB,
    getLastD_append_right _ _ hSB, getLastD_append_right _ _ hSB]
  conv_rhs => rw [decompA]
  simp [hstrip1, hstrip2]

/-- C8: when a `Text` render element is written, the HTML-escaped text is
split into lines and the lines are emitted joined by single newlines;
consequently a trailing newline at the end of the text is not emitted at
all (made precise for texts not already ending in a newline or carriage
return), and a CRLF sequence inside the text is emitted as a bare newline
(made precise for a CRLF whose preceding character is not itself a carriage
return). -/
theorem c8_text_lines_emission :
    (∀ (t : String) (depth : Nat),
      RenderElement.write (.text t) depth =
        .ok (String.mk (List.intercalate ['\n']
          (rustLines (escapeTextL t.data))))) ∧
    (∀ t : List Char, t.getLast? ≠ some '\n' → t.getLast? ≠ some '\r' →
      writeTextL (t ++ ['\n']) = writeTextL t) ∧
    (∀ a b : List Char, a.getLast? ≠ some '\r' →
      writeTextL (a ++ '\r' :: '\n' :: b) = writeTextL (a ++ '\n' :: b)) ∧
    writeText "Hello\n" = "Hello" ∧
    writeText "a\r\nb" = "a\nb" :=
  ⟨fun _ _ => rfl, writeTextL_trailing_nl, writeTextL_crlf, rfl, rfl⟩

/-- C8 witness: the two conditional clauses instantiated at concrete texts
(`ab` plus a trailing newline, and `x` CRLF `y`). -/
theorem c8_text_lines_emission_witness :
    writeTextL (['a', 'b'] ++ ['\n']) = writeTextL ['a', 'b'] ∧
    writeTextL (['x'] ++ '\r' :: '\n' :: ['y']) =
      writeTextL (['x'] ++ '\n' :: ['y']) :=
  ⟨c8_text_lines_emission.2.1 ['a', 'b'] (by decide) (by decide),
   c8_text_lines_emission.2.2.1 ['x'] ['y'] (by decide)⟩

/-- Building the machine invariant for a configuration outside the quoted
state. -/
theorem AttrInv.mk_plain (cfg : AttrConfig) (h1 : cfg.inQuotes = false)
    (h2 : cfg.state ≠ .inQuotedValue)
    (h3 : cfg.state = .afterEquals → cfg.currentValue = some [])
    (h4 : cfg.state = .inUnquotedValue → ∃ v, cfg.currentValue = some v) :
    AttrInv cfg := by
  refine ⟨?_, ?_, h3, h4⟩
  · rw [h1]
    exact ⟨fun h => Bool.noConfusion h, fun hs => absurd hs h2⟩
  · exact fun hs => absurd hs h2

/-- Building the machine invariant for a configuration in the quoted
state. -/
theorem AttrInv.mk_quoted (cfg : AttrConfig) (h1 : cfg.inQuotes = true)
    (h2 : cfg.state = .inQuotedValue) (qc : Char)
    (h3 : cfg.quoteChar = some qc) (h4 : qc = '"' ∨ qc = '\'')
    (v : List Char) (h5 : cfg.currentValue = some v) : AttrInv cfg := by
  refine ⟨?_, fun _ => ⟨qc, h3, h4, v, h5⟩, fun hs => ?_, fun hs => ?_⟩
  · rw [h1, h2]; simp
  · rw [h2] at hs; cases hs
  · rw [h2] at hs; cases hs

/-- Outside the quoted state, the invariant forces the quote flag off. -/
theorem AttrInv.inQuotes_false {cfg : AttrConfig} (h : AttrInv cfg)
    (hs : cfg.state ≠ .inQuotedValue) : cfg.inQuotes = false := by
  cases hq : cfg.inQuotes
  · rfl
  · exact absurd (h.1.mp hq) hs

/-- Shifting the unclosed-quote witness across one consumed character. -/
theorem unclosedShift (c : Char) (rest : List Char) (pos : Nat) (q : Char)
    (p : Nat) (v : String)
    (h : ∃ k, rest.get? k = some q ∧ (q = '"' ∨ q = '\'') ∧ p = (pos + 1) + k ∧
      v = String.mk (rest.drop (k + 1)) ∧ q ∉ rest.drop (k + 1)) :
    ∃ k, (c :: rest).get? k = some q ∧ (q = '"' ∨ q = '\'') ∧ p = pos + k ∧
      v = String.mk ((c :: rest).drop (k + 1)) ∧ q ∉ (c :: rest).drop (k + 1) := by
  obtain ⟨k, h1, h2, h3, h4, h5⟩ := h
  exact ⟨k + 1, by simpa using h1, h2, by omega, by simpa using h4,
    by simpa using h5⟩

/-- The `parse_from_str` machine returns `UnclosedQuote` only by reaching
end of input with a quote still open: whenever a run from an invariant
configuration returns `UnclosedQuote q p v`, either the configuration was
already inside a quote opened at `p` whose quote character `q` never
reappears in the input (and `v` extends its pending value with the whole
input), or the quote was opened at input offset `p - pos`, is a double or
single quote, never closes, and `v` is exactly the input after it. -/
theorem attrRun_unclosed (input : List Char) :
    ∀ (cfg : AttrConfig) (pos : Nat) (q : Char) (p : Nat) (v : String),
    AttrInv cfg →
    attrRun cfg pos input = .error (.unclosedQuote q p v) →
    (cfg.state = .inQuotedValue ∧ cfg.quoteChar = some q ∧
      p = cfg.quoteStartPos ∧
      (∃ v₀, cfg.currentValue = some v₀ ∧ v = String.mk (v₀ ++ input)) ∧
      q ∉ input) ∨
    (∃ k, input.get? k = some q ∧ (q = '"' ∨ q = '\'') ∧ p = pos + k ∧
      v = String.mk (input.drop (k + 1)) ∧ q ∉ input.drop (k + 1)) := by
  induction input with
  | nil =>
      intro cfg pos q p v hinv h
      by_cases hq : cfg.inQuotes = true
      · have hstate : cfg.state = .inQuotedValue := hinv.1.mp hq
        obtain ⟨qc, hqc, hqcor, v₀, hv₀⟩ := hinv.2.1 hstate
        simp only [attrRun, hq, if_true, hqc, hv₀, Option.getD_some,
          Except.error.injEq, AttributeParseError.unclosedQuote.injEq] at h
        obtain ⟨h1, h2, h3⟩ := h
        refine Or.inl ⟨hstate, by rw [hqc, h1], h2.symm,
          ⟨v₀, hv₀, by simp [← h3]⟩, by simp⟩
      · have hq' : cfg.inQuotes = false := by
          cases hqq : cfg.inQuotes
          · rfl
          · exact absurd hqq hq
        cases hemp : cfg.currentKey.isEmpty <;>
          simp [attrRun, hq', hemp] at h
  | cons c rest ih =>
      intro cfg pos q p v hinv h
      have next : ∀ st' : AttrConfig, AttrInv st' → st'.state ≠ .inQuotedValue →
          attrRun st' (pos + 1) rest = .error (.unclosedQuote q p v) →
          (∃ k, (c :: rest).get? k = some q ∧ (q = '"' ∨ q = '\'') ∧
            p = pos + k ∧ v = String.mk ((c :: rest).drop (k + 1)) ∧
            q ∉ (c :: rest).drop (k + 1)) := by
        intro st' hinv' hns h'
        rcases ih st' (pos + 1) q p v hinv' h' with ⟨hs, _⟩ | hd2
        · exact absurd hs hns
        · exact unclosedShift c rest pos q p v hd2
      cases hst : cfg.state with
      | beforeAttribute =>
          have hnq := hinv.inQuotes_false (by simp [hst])
          simp only [attrRun, hst] at h
          split_ifs at h with h1 h2
          · exact Or.inr (next cfg hinv (by simp [hst]) h)
          · simp at h
          · refine Or.inr (next _ ?_ (by simp) h)
            exact AttrInv.mk_plain _ (by simpa using hnq) (by simp)
              (by simp) (by simp)
      | inName =>
          have hnq := hinv.inQuotes_false (by simp [hst])
          simp only [attrRun, hst] at h
          split_ifs at h with h1 h2 h3
          · refine Or.inr (next _ ?_ (by simp) h)
            exact AttrInv.mk_plain _ (by simpa using hnq) (by simp)
              (by simp) (by simp)
          · refine Or.inr (next _ ?_ (by simp) h)
            exact AttrInv.mk_plain _ (by simpa using hnq) (by simp)
              (by simp) (by simp)
          · refine Or.inr (next _ ?_ (by simp) h)
            exact AttrInv.mk_plain _ (by simpa using hnq) (by simp)
              (by simp) (by simp)
          · refine Or.inr (next _ ?_ (by simp) h)
            exact AttrInv.mk_plain _ (by simpa using hnq) (by simp)
              (by simp) (by simp)
      | beforeEquals =>
          have hnq := hinv.inQuotes_false (by simp [hst])
          simp only [attrRun, hst] at h
          split_ifs at h with h1 h2
          · exact Or.inr (next cfg hinv (by simp [hst]) h)
          · refine Or.inr (next _ ?_ (by simp) h)
            exact AttrInv.mk_plain _ (by simpa using hnq) (by simp)
              (by simp) (by simp)
          · simp at h
      | afterEquals =>
          have hnq := hinv.inQuotes_false (by simp [hst])
          have hcv : cfg.currentValue = some [] := hinv.2.2.1 hst
          simp only [attrRun, hst, hcv] at h
          split_ifs at h with h1 h2 h3
          · exact Or.inr (next cfg hinv (by simp [hst]) h)
          · -- a quote opens here
            rcases ih _ (pos + 1) q p v
                (AttrInv.mk_quoted _ rfl rfl c rfl h2 [] (by simp [hcv]))
                h with ⟨_, hqc', hp, ⟨v₀, hv₀, hv⟩, hnotin⟩ | hd2
            · have hcq : c = q := by simpa using hqc'
              have hv0 : v₀ = [] := by
                have h' := hv₀
                simp only at h'
                simpa using h'.symm
              refine Or.inr ⟨0, by simp [hcq], hcq ▸ h2, by simpa using hp,
                by simpa [hv0] using hv, by simpa using hnotin⟩
            · exact Or.inr (unclosedShift c rest pos q p v hd2)
          · simp at h
          · refine Or.inr (next _ ?_ (by simp) h)
            exact AttrInv.mk_plain _ (by simpa using hnq) (by simp)
              (by simp) (by simp)
      | inQuotedValue =>
          obtain ⟨qc, hqc, hqcor, v₀, hv₀⟩ := hinv.2.1 hst
          have hq : cfg.inQuotes = true := hinv.1.mpr hst
          simp only [attrRun, hst, hv₀] at h
          split_ifs at h with h1
          · -- the quote closes
            refine Or.inr (next _ ?_ (by simp) h)
            exact AttrInv.mk_plain _ (by simp) (by simp) (by simp) (by simp)
          · -- another character inside the quoted value
            rcases ih _ (pos + 1) q p v
                (AttrInv.mk_quoted _ (by simpa using hq) rfl qc
                  (by simpa using hqc) hqcor (v₀ ++ [c]) (by simp))
                h with ⟨_, hqc', hp, ⟨w, hw, hv⟩, hnotin⟩ | hd2
            · have hqc2 : cfg.quoteChar = some q := by simpa using hqc'
              have hwv : w = v₀ ++ [c] := by
                have h' := hw
                simp only at h'
                exact (Option.some.inj h').symm
              have hcq : q ≠ c := by
                intro he
                exact h1 (by rw [← he]; exact hqc2.symm)
              refine Or.inl ⟨rfl, hqc2, by simpa using hp,
                ⟨v₀, hv₀, ?_⟩, ?_⟩
              · rw [hv, hwv]
                simp
              · simp only [List.mem_cons, not_or]
                exact ⟨hcq, hnotin⟩
            · exact Or.inr (unclosedShift c rest pos q p v hd2)
      | inUnquotedValue =>
          have hnq := hinv.inQuotes_false (by simp [hst])
          obtain ⟨v₀, hv₀⟩ := hinv.2.2.2 hst
          simp only [attrRun, hst, hv₀] at h
          split_ifs at h with h1 h2
          · refine Or.inr (next _ ?_ (by simp) h)
            exact AttrInv.mk_plain _ (by simpa using hnq) (by simp)
              (by simp) (by simp)
          · simp at h
          · refine Or.inr (next _ ?_ (by simp) h)
            exact AttrInv.mk_plain _ (by simpa using hnq) (by simp)
              (by simp) (fun _ => ⟨v₀ ++ [c], by simp⟩)

/-- C6: `parse_from_str("id=\"test")` returns
`UnclosedQuote{quote: '"', position: 3, partial_value: "test"}`; in
general `UnclosedQuote` is produced exactly by reaching end of input while
a quoted value is still open: any `UnclosedQuote q p v` result locates the
opening quote character `q` (a double or single quote) at position `p` of
the input, with no matching close after it, and carries as partial value
exactly the input after the opening quote; conversely a run that reaches
end of input with a quote open fails with `UnclosedQuote` carrying the
opening quote's position and the partial value parsed so far. -/
theorem c6_unclosed_quote :
    parseFromStr "id=\"test" = .error (.unclosedQuote '"' 3 "test") ∧
    (∀ (s : String) (q : Char) (p : Nat) (v : String),
      parseFromStr s = .error (.unclosedQuote q p v) →
      s.data.get? p = some q ∧ (q = '"' ∨ q = '\'') ∧
      v = String.mk (s.data.drop (p + 1)) ∧ q ∉ s.data.drop (p + 1)) ∧
    (∀ (cfg : AttrConfig) (pos : Nat) (qc : Char) (val : List Char),
      cfg.inQuotes = true → cfg.quoteChar = some qc →
      cfg.currentValue = some val →
      attrRun cfg pos [] =
        .error (.unclosedQuote qc cfg.quoteStartPos (String.mk val))) := by
  refine ⟨rfl, fun s q p v h => ?_, fun cfg pos qc val hq hqc hval => ?_⟩
  · have hinv : AttrInv attrInit :=
      AttrInv.mk_plain _ rfl (by simp [attrInit]) (by simp [attrInit])
        (by simp [attrInit])
    rcases attrRun_unclosed s.data attrInit 0 q p v hinv h with
      ⟨hs, _⟩ | ⟨k, h1, h2, h3, h4, h5⟩
    · simp [attrInit] at hs
    · have hk : k = p := by omega
      subst hk
      exact ⟨h1, h2, h4, h5⟩
  · simp [attrRun, hq, hqc, hval]

/-- C6 witness: the general clauses instantiated concretely — the
implication at the input `id="test`, and the end-of-input clause at the
configuration reached after `id="test` (quote opened at position 3,
partial value `test`). -/
theorem c6_unclosed_quote_witness :
    (("id=\"test" : String).data.get? 3 = some '"' ∧
      ('"' = '"' ∨ '"' = '\'') ∧
      "test" = String.mk (("id=\"test" : String).data.drop 4) ∧
      '"' ∉ ("id=\"test" : String).data.drop 4) ∧
    attrRun ⟨[], ['i', 'd'], some ['t', 'e', 's', 't'], true, some '"', 3,
        .inQuotedValue⟩ 8 [] =
      .error (.unclosedQuote '"' 3 (String.mk ['t', 'e', 's', 't'])) :=
  ⟨c6_unclosed_quote.2.1 "id=\"test" '"' 3 "test" rfl,
   c6_unclosed_quote.2.2 _ 8 '"' ['t', 'e', 's', 't'] rfl rfl rfl⟩

end Paxhtml
